import Mathlib

/-!
Verification of the UHF-SCF solver with DIIS acceleration from
`Tutorials/03_Hartree-Fock/3c_unrestricted-hartree-fock.ipynb`.

The notebook's numerical core is embedded shallowly over exact rationals:

* matrices are `Matrix (Fin m) (Fin m) ℚ`; the rank-4 electron-repulsion
  tensor is `Fin m → Fin m → Fin m → Fin m → ℚ`;
* `numpy.einsum` contractions become explicit `Finset` sums;
* `numpy.linalg.solve` is modelled by `linSolve`, which fails exactly on a
  singular coefficient matrix and otherwise returns the unique solution
  (Cramer's rule, with a computable cofactor determinant `detc` proved equal
  to `Matrix.det`); an uncaught `LinAlgError` is an `Except.error`;
* `numpy.linalg.eigh` is external library code, so the eigensolver is an
  abstract parameter `eigh` threaded through the embedding; `diag_F` only
  fixes how the notebook wraps it (orthogonal-basis transform, back
  transform, occupied columns, density build);
* the convergence test compares `0.5*(sqrt(mean(ra**2)) + sqrt(mean(rb**2)))`
  with `D_conv`; over ℚ this is embedded as the decidable predicate
  `rmsAvgLt (mean ra²) (mean rb²) (2*D_conv)`, proved equivalent to
  `Real.sqrt (mean ra²) + Real.sqrt (mean rb²) < 2*D_conv` in
  `rmsAvgLt_iff_sqrt`;
* the `for scf_iter in range(1, MAXITER+1)` loop with its `break` and
  `raise` statements becomes the step function `scfStep` and the
  fuel-indexed loop `scfIters`; a Python exception is `Except.error`.
-/

namespace UHF

/-- Square rational matrices of size m, the embedding of the notebook's
2-d `numpy` arrays. -/
abbrev Mat (m : ℕ) := Matrix (Fin m) (Fin m) ℚ

/-- Rank-4 rational tensor, the embedding of the ERI tensor `I`. -/
abbrev Ten4 (m : ℕ) := Fin m → Fin m → Fin m → Fin m → ℚ

/-- Element-wise double contraction `np.einsum('ij,ij->', X, Y)`. -/
def dotMat {m : ℕ} (X Y : Mat m) : ℚ := ∑ p : Fin m, ∑ q : Fin m, X p q * Y p q

/-- Computable determinant by cofactor expansion along the first row;
`Matrix.det` itself does not evaluate on concrete inputs. -/
def detc : {n : ℕ} → Matrix (Fin n) (Fin n) ℚ → ℚ
  | 0, _ => 1
  | n+1, A =>
    ∑ j : Fin (n+1), (-1) ^ (j : ℕ) * A 0 j * detc (A.submatrix Fin.succ j.succAbove)

theorem detc_eq_det : ∀ {n : ℕ} (A : Matrix (Fin n) (Fin n) ℚ), detc A = A.det
  | 0, A => by simp [detc, Matrix.det_fin_zero]
  | n+1, A => by
    rw [detc, Matrix.det_succ_row_zero]
    exact Finset.sum_congr rfl fun j _ => by rw [detc_eq_det]

/-- Model of `numpy.linalg.solve`: raises `LinAlgError` (here: `none`)
exactly when the coefficient matrix is singular, and otherwise returns the
unique solution of `B · x = v`, written via Cramer's rule. -/
def linSolve {n : ℕ} (B : Matrix (Fin n) (Fin n) ℚ) (v : Fin n → ℚ) :
    Option (Fin n → ℚ) :=
  if detc B = 0 then none else some fun i => detc (B.updateColumn i v) / detc B

/-- Soundness of the solver model: a returned vector really solves the
system. -/
theorem linSolve_mulVec {n : ℕ} (B : Matrix (Fin n) (Fin n) ℚ) (v x : Fin n → ℚ)
    (h : linSolve B v = some x) : B.mulVec x = v := by
  unfold linSolve at h
  split_ifs at h with hd
  rw [detc_eq_det] at hd
  have hx : x = (B.det)⁻¹ • B.cramer v := by
    have h2 := Option.some.inj h
    funext i
    rw [← h2]
    simp [Matrix.cramer_apply, detc_eq_det, div_eq_inv_mul]
  rw [hx, Matrix.mulVec_smul, Matrix.mulVec_cramer, smul_smul,
    inv_mul_cancel₀ hd, one_smul]

/-- Completeness of the solver model: it fails only on singular matrices. -/
theorem linSolve_eq_none_iff {n : ℕ} (B : Matrix (Fin n) (Fin n) ℚ)
    (v : Fin n → ℚ) : linSolve B v = none ↔ B.det = 0 := by
  unfold linSolve
  rw [← detc_eq_det]
  split_ifs with hd <;> simp [hd]

/-- Embedding of the notebook's `diis_xtrap(F_list, DIIS_RESID)`: builds the
bordered Gram matrix `B` (`B[i,j]` the double contraction of residuals for
`i,j < k`, last row and column `-1`, corner `0`), solves the Pulay system
`B·c = (0,…,0,-1)`, and returns `Σ_{x<k} c[x]·F_list[x]`.  `none` models the
uncaught `numpy.linalg.LinAlgError` on a singular `B`. -/
def diis_xtrap {m : ℕ} (F_list DIIS_RESID : List (Mat m)) : Option (Mat m) :=
  let k := F_list.length
  let B : Matrix (Fin (k+1)) (Fin (k+1)) ℚ := fun i j =>
    if (i : ℕ) = k ∨ (j : ℕ) = k then
      (if (i : ℕ) = k ∧ (j : ℕ) = k then 0 else -1)
    else dotMat (DIIS_RESID.getD i 0) (DIIS_RESID.getD j 0)
  let rhs : Fin (k+1) → ℚ := fun i => if (i : ℕ) = k then -1 else 0
  (linSolve B rhs).map fun coeff =>
    ∑ x : Fin k, coeff x.castSucc • F_list.getD x 0

/-- Embedding of the notebook's `diag_F(F, norb)`.  The orthogonalization
matrix `A` is a global in the notebook and an explicit argument here; the
eigenvector matrix of `numpy.linalg.eigh` is the abstract external
parameter `eigh`.  `F_p = A·F·A`, `C = A·C_p`, the first `norb` columns are
occupied, and `D = C_occ·C_occᵀ`. -/
def diag_F {m : ℕ} (A : Mat m) (eigh : Mat m → Mat m) (F : Mat m)
    (norb : ℕ) : Mat m × Mat m :=
  let F_p := A * F * A
  let C_p := eigh F_p
  let C := A * C_p
  let D : Mat m := fun p q =>
    ∑ i ∈ Finset.univ.filter fun i : Fin m => (i : ℕ) < norb, C p i * C q i
  (C, D)

/-- Definition following the specification's words for the orbital update:
transform `F` into the orthogonal basis via `F' = Aᵗ·F·A`, back-transform
the eigenvectors via `C = A·C'`, take the first `norb` columns as occupied
orbitals, and form `D = C_occ·C_occᵗ`.  Compared against `diag_F` (which
computes `A·F·A`) in the claim C6 theorem. -/
def specDiag_F {m : ℕ} (A : Mat m) (eigh : Mat m → Mat m) (F : Mat m)
    (norb : ℕ) : Mat m × Mat m :=
  let F_p := A.transpose * F * A
  let C_p := eigh F_p
  let C := A * C_p
  let D : Mat m := fun p q =>
    ∑ i ∈ Finset.univ.filter fun i : Fin m => (i : ℕ) < norb, C p i * C q i
  (C, D)

/-- Coulomb contraction `np.einsum('pqrs,rs->pq', I, D)`, following the
specification's description of the Coulomb index pattern. -/
def Jmat {m : ℕ} (I : Ten4 m) (D : Mat m) : Mat m :=
  fun p q => ∑ r : Fin m, ∑ s : Fin m, I p q r s * D r s

/-- Exchange contraction `np.einsum('prqs,rs->pq', I, D)`, following the
specification's description of the exchange index pattern. -/
def Kmat {m : ℕ} (I : Ten4 m) (D : Mat m) : Mat m :=
  fun p q => ∑ r : Fin m, ∑ s : Fin m, I p r q s * D r s

/-- Embedding of the Fock build lines of the SCF loop:
`Ja`, `Jb`, `Ka`, `Kb` einsum contractions, then `Fa = H + (Ja+Jb) - Ka`
and `Fb = H + (Ja+Jb) - Kb`. -/
def buildFock {m : ℕ} (H : Mat m) (I : Ten4 m) (Da Db : Mat m) :
    Mat m × Mat m :=
  let Ja : Mat m := fun p q => ∑ r : Fin m, ∑ s : Fin m, I p q r s * Da r s
  let Jb : Mat m := fun p q => ∑ r : Fin m, ∑ s : Fin m, I p q r s * Db r s
  let Ka : Mat m := fun p q => ∑ r : Fin m, ∑ s : Fin m, I p r q s * Da r s
  let Kb : Mat m := fun p q => ∑ r : Fin m, ∑ s : Fin m, I p r q s * Db r s
  (H + (Ja + Jb) - Ka, H + (Ja + Jb) - Kb)

/-- Embedding of `A.dot(F.dot(D).dot(S) - S.dot(D).dot(F)).dot(A)`, the
DIIS residual of one spin channel. -/
def diisResidual {m : ℕ} (A S F D : Mat m) : Mat m :=
  A * (F * D * S - S * D * F) * A

/-- Embedding of the UHF energy block of the loop:
`0.5*(einsum((Da+Db),H) + einsum(Da,Fa) + einsum(Db,Fb)) + E_nuc`. -/
def scfEnergy {m : ℕ} (H : Mat m) (Enuc : ℚ) (Da Db Fa Fb : Mat m) : ℚ :=
  (dotMat (Da + Db) H + dotMat Da Fa + dotMat Db Fb) * (1/2) + Enuc

/-- Mean of the squared entries of a matrix, `np.mean(R**2)`. -/
def meanSq {m : ℕ} (R : Mat m) : ℚ := dotMat R R / (m : ℚ)^2

/-- Decidable rational embedding of `sqrt a + sqrt b < c` (for `a b ≥ 0`):
the loop's test `0.5*(np.mean(ra**2)**0.5 + np.mean(rb**2)**0.5) < D_conv`
is `rmsAvgLt (meanSq ra) (meanSq rb) (2*D_conv)`.  Justified by
`rmsAvgLt_iff_sqrt` below. -/
def rmsAvgLt (a b c : ℚ) : Prop :=
  0 < c ∧ a + b < c^2 ∧ 4*a*b < (c^2 - a - b)^2

instance (a b c : ℚ) : Decidable (rmsAvgLt a b c) := by
  unfold rmsAvgLt
  infer_instance

/-- External inputs of the solver (spec §6), all supplied by the external
integral machinery in the notebook: overlap `S`, core Hamiltonian `H`, ERI
tensor `I`, orthogonalization matrix `A`, electron counts, nuclear
repulsion energy, the two convergence thresholds, and the abstract external
eigensolver. -/
structure ScfInputs (m : ℕ) where
  S : Mat m
  H : Mat m
  I : Ten4 m
  A : Mat m
  nalpha : ℕ
  nbeta : ℕ
  Enuc : ℚ
  Econv : ℚ
  Dconv : ℚ
  eigh : Mat m → Mat m

/-- Mutable state of the SCF loop: orbital and density matrices per spin,
the four DIIS history lists, and the current and previous energies. -/
structure ScfState (m : ℕ) where
  Ca : Mat m
  Cb : Mat m
  Da : Mat m
  Db : Mat m
  Fla : List (Mat m)
  Flb : List (Mat m)
  Rla : List (Mat m)
  Rlb : List (Mat m)
  SCF_E : ℚ
  Eold : ℚ

/-- Pre-iteration setup: core-Hamiltonian guess `diag_F(H, nalpha)` /
`diag_F(H, nbeta)`, empty DIIS histories, `SCF_E = 0.0`, `E_old = 0.0`. -/
def initState {m : ℕ} (inp : ScfInputs m) : ScfState m :=
  { Ca := (diag_F inp.A inp.eigh inp.H inp.nalpha).1
    Da := (diag_F inp.A inp.eigh inp.H inp.nalpha).2
    Cb := (diag_F inp.A inp.eigh inp.H inp.nbeta).1
    Db := (diag_F inp.A inp.eigh inp.H inp.nbeta).2
    Fla := []
    Flb := []
    Rla := []
    Rlb := []
    SCF_E := 0
    Eold := 0 }

/-- Outcome of one pass through the loop body: `break` with the converged
energy, fall through to the next iteration, or an uncaught exception. -/
inductive StepResult (m : ℕ) where
  | converged (E : ℚ) (s : ScfState m)
  | next (s : ScfState m)
  | failed (msg : String)

/-- Message of the exception raised when `scf_iter == MAXITER`. -/
def maxiterMsg : String := "Maximum number of SCF iterations exceeded."

/-- Message of the `numpy.linalg.LinAlgError` raised on a singular Pulay
matrix. -/
def linalgMsg : String := "Singular matrix"

/-- Energy computed by the current loop pass from the state's densities. -/
def stepE {m : ℕ} (inp : ScfInputs m) (s : ScfState m) : ℚ :=
  scfEnergy inp.H inp.Enuc s.Da s.Db
    (buildFock inp.H inp.I s.Da s.Db).1 (buildFock inp.H inp.I s.Da s.Db).2

/-- The α DIIS residual computed by the current loop pass. -/
def stepRa {m : ℕ} (inp : ScfInputs m) (s : ScfState m) : Mat m :=
  diisResidual inp.A inp.S (buildFock inp.H inp.I s.Da s.Db).1 s.Da

/-- The β DIIS residual computed by the current loop pass. -/
def stepRb {m : ℕ} (inp : ScfInputs m) (s : ScfState m) : Mat m :=
  diisResidual inp.A inp.S (buildFock inp.H inp.I s.Da s.Db).2 s.Db

/-- The loop's convergence test
`(abs(dE) < E_conv) and (dRMS < D_conv)` on the quantities of the current
pass, with the `dRMS` comparison in its rational form. -/
def convCond {m : ℕ} (inp : ScfInputs m) (s : ScfState m) : Prop :=
  |stepE inp s - s.Eold| < inp.Econv ∧
    rmsAvgLt (meanSq (stepRa inp s)) (meanSq (stepRb inp s)) (2 * inp.Dconv)

instance {m : ℕ} (inp : ScfInputs m) (s : ScfState m) :
    Decidable (convCond inp s) := by
  unfold convCond
  infer_instance

/-- One pass through the body of `for scf_iter in range(1, MAXITER+1)`:
Fock build, residuals, history append, energy, convergence check (`break`),
`E_old` update, DIIS extrapolation from the second iteration on (an
uncaught `LinAlgError` aborts the run), new orbital guess, and the
`MAXITER` exception at the last allowed iteration. -/
def scfStep {m : ℕ} (inp : ScfInputs m) (it MAXITER : ℕ) (s : ScfState m) :
    StepResult m :=
  let Fa := (buildFock inp.H inp.I s.Da s.Db).1
  let Fb := (buildFock inp.H inp.I s.Da s.Db).2
  let Fla := s.Fla ++ [Fa]
  let Flb := s.Flb ++ [Fb]
  let Rla := s.Rla ++ [stepRa inp s]
  let Rlb := s.Rlb ++ [stepRb inp s]
  let E := stepE inp s
  if convCond inp s then
    .converged E { s with Fla := Fla, Flb := Flb, Rla := Rla, Rlb := Rlb,
                          SCF_E := E }
  else
    match (if 2 ≤ it then diis_xtrap Fla Rla else some Fa),
          (if 2 ≤ it then diis_xtrap Flb Rlb else some Fb) with
    | some Fa2, some Fb2 =>
      if it = MAXITER then .failed maxiterMsg
      else
        .next { Ca := (diag_F inp.A inp.eigh Fa2 inp.nalpha).1
                Da := (diag_F inp.A inp.eigh Fa2 inp.nalpha).2
                Cb := (diag_F inp.A inp.eigh Fb2 inp.nbeta).1
                Db := (diag_F inp.A inp.eigh Fb2 inp.nbeta).2
                Fla := Fla, Flb := Flb, Rla := Rla, Rlb := Rlb,
                SCF_E := E, Eold := E }
    | _, _ => .failed linalgMsg

/-- The iteration loop, by remaining-iteration fuel: iteration indices run
`it, it+1, …`; exhausted fuel models falling off the end of the `range`. -/
def scfIters {m : ℕ} (inp : ScfInputs m) (MAXITER : ℕ) :
    ℕ → ℕ → ScfState m → Except String (ℚ × ScfState m)
  | 0, _, s => .ok (s.SCF_E, s)
  | fuel+1, it, s =>
    match scfStep inp it MAXITER s with
    | .converged E s' => .ok (E, s')
    | .next s' => scfIters inp MAXITER fuel (it+1) s'
    | .failed msg => .error msg

/-- Whole SCF run: setup state, then iterations `1 … MAXITER`. -/
def scfRun {m : ℕ} (inp : ScfInputs m) (MAXITER : ℕ) :
    Except String (ℚ × ScfState m) :=
  scfIters inp MAXITER MAXITER 1 (initState inp)

/-- Message of the memory-limit exception of the setup cell. -/
def memErrMsg : String :=
  "Estimated memory utilization exceeds allotted memory limit."

/-- Embedding of the setup cell's ERI memory check:
`I_size = (nbf**4) * 8.e-9` GB, raising before the tensor is built when
`I_size > numpy_memory`. -/
def memCheck (nbf : ℕ) (budget : ℚ) : Except String Unit :=
  if (nbf : ℚ)^4 * 8 / 10^9 > budget then .error memErrMsg else .ok ()

/-- The program from setup through the SCF loop: the only check performed
before iterating is the ERI memory estimate; on failure nothing else runs. -/
def runProgram {m : ℕ} (inp : ScfInputs m) (MAXITER : ℕ) (budget : ℚ) :
    Except String (ℚ × ScfState m) :=
  match memCheck m budget with
  | .error msg => .error msg
  | .ok _ => scfRun inp MAXITER

/-! ### Evaluation helpers for concrete 1×1 instances -/

/-- Constant 1×1 rational matrix, used to build concrete instances. -/
def matC (x : ℚ) : Mat 1 := Matrix.of fun _ _ => x

@[simp]
theorem matC_apply (x : ℚ) (p q : Fin 1) : matC x p q = x := rfl

@[simp]
theorem matC_mul (x y : ℚ) : matC x * matC y = matC (x * y) := by
  funext p q
  simp [matC, Matrix.mul_apply]

@[simp]
theorem matC_add (x y : ℚ) : matC x + matC y = matC (x + y) := by
  funext p q
  simp [matC]

@[simp]
theorem matC_sub (x y : ℚ) : matC x - matC y = matC (x - y) := by
  funext p q
  simp [matC]

@[simp]
theorem smul_matC (c x : ℚ) : c • matC x = matC (c * x) := by
  funext p q
  simp [matC]

@[simp]
theorem dotMat_matC (x y : ℚ) : dotMat (matC x) (matC y) = x * y := by
  simp [dotMat]

@[simp]
theorem matC_zero : matC 0 = 0 := by
  funext p q
  simp [matC]

theorem mat1_eq_matC (X : Mat 1) : X = matC (X 0 0) := by
  funext p q
  rw [Subsingleton.elim p 0, Subsingleton.elim q 0]
  rfl

/-- On 1×1 matrices the commutator-based DIIS residual always vanishes. -/
theorem diisResidual_mat1 (A S F D : Mat 1) : diisResidual A S F D = 0 := by
  funext p q
  simp only [diisResidual, Matrix.mul_apply, Matrix.sub_apply, Matrix.zero_apply,
    Finset.univ_unique, Finset.sum_singleton]
  ring

@[simp]
theorem meanSq_zero {m : ℕ} : meanSq (0 : Mat m) = 0 := by
  simp [meanSq, dotMat]

theorem diag_F_one (f : ℚ) (n : ℕ) (hn : 0 < n) :
    diag_F (matC 1) id (matC f) n = (matC f, matC (f * f)) := by
  unfold diag_F
  simp only [id_eq, matC_mul, one_mul, mul_one]
  refine Prod.ext rfl ?_
  funext p q
  rw [Subsingleton.elim p 0, Subsingleton.elim q 0]
  simp [Finset.sum_filter, hn]

theorem buildFock_one (h c da db : ℚ) :
    buildFock (matC h) (fun _ _ _ _ => c) (matC da) (matC db) =
      (matC (h + (c * da + c * db) - c * da),
       matC (h + (c * da + c * db) - c * db)) := by
  unfold buildFock
  refine Prod.ext ?_ ?_ <;>
    · funext p q
      simp [Matrix.add_apply, Matrix.sub_apply, matC]

/-- On a 1×1 system the α residual of any pass is the zero matrix. -/
theorem stepRa_mat1 (inp : ScfInputs 1) (s : ScfState 1) : stepRa inp s = 0 :=
  diisResidual_mat1 _ _ _ _

/-- On a 1×1 system the β residual of any pass is the zero matrix. -/
theorem stepRb_mat1 (inp : ScfInputs 1) (s : ScfState 1) : stepRb inp s = 0 :=
  diisResidual_mat1 _ _ _ _

/-- Concrete 1×1 input: `S = A = [[1]]`, `H = [[2]]`, all ERI entries `1`,
one electron of each spin, tight thresholds `10⁻³`. -/
def cxInp : ScfInputs 1 :=
  { S := matC 1, H := matC 2, I := fun _ _ _ _ => 1, A := matC 1,
    nalpha := 1, nbeta := 1, Enuc := 0, Econv := 1/1000, Dconv := 1/1000,
    eigh := id }

/-- The state `initState cxInp` evaluates to. -/
def cxS0 : ScfState 1 :=
  { Ca := matC 2, Cb := matC 2, Da := matC 4, Db := matC 4,
    Fla := [], Flb := [], Rla := [], Rlb := [], SCF_E := 0, Eold := 0 }

/-- The state reached after SCF iteration 1 on `cxInp`. -/
def cxS1 : ScfState 1 :=
  { Ca := matC 6, Cb := matC 6, Da := matC 36, Db := matC 36,
    Fla := [matC 6], Flb := [matC 6], Rla := [0], Rlb := [0],
    SCF_E := 32, Eold := 32 }

theorem cx_init : initState cxInp = cxS0 := by
  have h : diag_F cxInp.A cxInp.eigh cxInp.H 1 = (matC 2, matC 4) := by
    show diag_F (matC 1) id (matC 2) 1 = _
    rw [diag_F_one 2 1 (by omega)]
    norm_num
  unfold initState cxS0
  show ScfState.mk (diag_F cxInp.A cxInp.eigh cxInp.H 1).1
      (diag_F cxInp.A cxInp.eigh cxInp.H 1).1
      (diag_F cxInp.A cxInp.eigh cxInp.H 1).2
      (diag_F cxInp.A cxInp.eigh cxInp.H 1).2 [] [] [] [] 0 0 = _
  rw [h]

theorem cx_fock0 : buildFock cxInp.H cxInp.I cxS0.Da cxS0.Db =
    (matC 6, matC 6) := by
  show buildFock (matC 2) (fun _ _ _ _ => 1) (matC 4) (matC 4) = _
  rw [buildFock_one]
  norm_num

theorem cx_fock1 : buildFock cxInp.H cxInp.I cxS1.Da cxS1.Db =
    (matC 38, matC 38) := by
  show buildFock (matC 2) (fun _ _ _ _ => 1) (matC 36) (matC 36) = _
  rw [buildFock_one]
  norm_num

theorem cx_E0 : stepE cxInp cxS0 = 32 := by
  unfold stepE
  rw [cx_fock0]
  show scfEnergy (matC 2) 0 (matC 4) (matC 4) (matC 6) (matC 6) = 32
  simp [scfEnergy]
  norm_num

theorem cx_E1 : stepE cxInp cxS1 = 1440 := by
  unfold stepE
  rw [cx_fock1]
  show scfEnergy (matC 2) 0 (matC 36) (matC 36) (matC 38) (matC 38) = 1440
  simp [scfEnergy]
  norm_num

theorem cx_not_conv0 : ¬ convCond cxInp cxS0 := by
  intro h
  have h1 := h.1
  rw [cx_E0] at h1
  norm_num [cxS0, cxInp] at h1

theorem cx_not_conv1 : ¬ convCond cxInp cxS1 := by
  intro h
  have h1 := h.1
  rw [cx_E1] at h1
  norm_num [cxS1, cxInp] at h1

/-- With two history entries whose residuals are both zero, the bordered
Pulay matrix has two equal rows, so the linear solve fails. -/
theorem diis_xtrap_two_zero {m : ℕ} (F G : Mat m) :
    diis_xtrap [F, G] [(0 : Mat m), 0] = none := by
  unfold diis_xtrap linSolve
  simp only [List.length_cons, List.length_nil, Nat.zero_add]
  rw [if_pos]
  · simp
  · rw [detc_eq_det]
    refine Matrix.det_zero_of_row_eq (i := (0 : Fin 3)) (j := 1) (by decide) ?_
    funext j
    fin_cases j <;> simp [dotMat]

/-- With a single history entry the bordered Pulay system always has
determinant `-1` and solution coefficient `c[0] = 1`. -/
theorem diis_xtrap_single {m : ℕ} (F R : Mat m) :
    diis_xtrap [F] [R] = some F := by
  unfold diis_xtrap linSolve
  simp only [List.length_cons, List.length_nil, Nat.zero_add]
  rw [if_neg ?hd]
  case hd =>
    norm_num [detc, Fin.sum_univ_succ, Matrix.submatrix_apply, Fin.succAbove,
      Fin.lt_def]
  norm_num [detc, Fin.sum_univ_succ, Matrix.submatrix_apply, Fin.succAbove,
    Fin.lt_def, Matrix.updateColumn_apply]

theorem cx_diag6a : diag_F cxInp.A cxInp.eigh (matC 6) cxInp.nalpha =
    (matC 6, matC 36) := by
  show diag_F (matC 1) id (matC 6) 1 = _
  rw [diag_F_one 6 1 (by omega)]
  norm_num

theorem cx_diag6b : diag_F cxInp.A cxInp.eigh (matC 6) cxInp.nbeta =
    (matC 6, matC 36) := by
  show diag_F (matC 1) id (matC 6) 1 = _
  rw [diag_F_one 6 1 (by omega)]
  norm_num

/-- Iteration 1 on `cxInp` does not converge, skips extrapolation, and
falls through to iteration 2 in state `cxS1`. -/
theorem cx_step1 : scfStep cxInp 1 40 cxS0 = .next cxS1 := by
  unfold scfStep
  rw [if_neg cx_not_conv0, cx_fock0, stepRa_mat1, stepRb_mat1, cx_E0]
  simp [cxS0, cxS1, cx_diag6a, cx_diag6b]

/-- Iteration 2 on `cxInp` reaches the DIIS extrapolation with two zero
residuals; the singular Pulay solve aborts the pass. -/
theorem cx_step2 : scfStep cxInp 2 40 cxS1 = .failed linalgMsg := by
  unfold scfStep
  rw [if_neg cx_not_conv1, cx_fock1]
  simp [stepRa_mat1, stepRb_mat1, cxS1, diis_xtrap_two_zero]

/-- The full run on `cxInp` aborts at iteration 2 with the propagated
singular-matrix error instead of continuing to iterate. -/
theorem scfIters_succ {m : ℕ} (inp : ScfInputs m) (MAXITER fuel it : ℕ)
    (s : ScfState m) :
    scfIters inp MAXITER (fuel+1) it s =
      match scfStep inp it MAXITER s with
      | .converged E s' => .ok (E, s')
      | .next s' => scfIters inp MAXITER fuel (it+1) s'
      | .failed msg => .error msg := rfl

theorem cx_run : scfRun cxInp 40 = .error linalgMsg := by
  unfold scfRun
  rw [cx_init]
  show scfIters cxInp 40 (39+1) 1 cxS0 = _
  rw [scfIters_succ, cx_step1]
  show scfIters cxInp 40 (38+1) 2 cxS1 = _
  rw [scfIters_succ, cx_step2]

theorem dotMat_self_nonneg {m : ℕ} (R : Mat m) : 0 ≤ dotMat R R := by
  refine Finset.sum_nonneg fun p _ => Finset.sum_nonneg fun q _ => ?_
  exact mul_self_nonneg _

theorem meanSq_nonneg {m : ℕ} (R : Mat m) : 0 ≤ meanSq R :=
  div_nonneg (dotMat_self_nonneg R) (sq_nonneg _)

/-- Bridge between the rational convergence predicate and the real
square-root comparison the notebook performs in floating point. -/
theorem rmsAvgLt_iff_sqrt (a b c : ℚ) (ha : 0 ≤ a) (hb : 0 ≤ b) :
    rmsAvgLt a b c ↔
      Real.sqrt (a : ℝ) + Real.sqrt (b : ℝ) < (c : ℝ) := by
  have ha' : (0:ℝ) ≤ (a:ℝ) := by exact_mod_cast ha
  have hb' : (0:ℝ) ≤ (b:ℝ) := by exact_mod_cast hb
  have hcast : rmsAvgLt a b c ↔
      (0 < (c:ℝ) ∧ (a:ℝ) + (b:ℝ) < (c:ℝ)^2 ∧
        4*(a:ℝ)*(b:ℝ) < ((c:ℝ)^2 - (a:ℝ) - (b:ℝ))^2) := by
    unfold rmsAvgLt
    constructor
    · rintro ⟨h1, h2, h3⟩
      exact ⟨by exact_mod_cast h1, by exact_mod_cast h2, by exact_mod_cast h3⟩
    · rintro ⟨h1, h2, h3⟩
      exact ⟨by exact_mod_cast h1, by exact_mod_cast h2, by exact_mod_cast h3⟩
  rw [hcast]
  set A := (a:ℝ)
  set B := (b:ℝ)
  set C := (c:ℝ)
  have hsa : 0 ≤ Real.sqrt A := Real.sqrt_nonneg _
  have hsb : 0 ≤ Real.sqrt B := Real.sqrt_nonneg _
  have hsa2 : Real.sqrt A ^ 2 = A := Real.sq_sqrt ha'
  have hsb2 : Real.sqrt B ^ 2 = B := Real.sq_sqrt hb'
  constructor
  · rintro ⟨hC, h1, h2⟩
    have hX : 0 < C^2 - A - B := by linarith
    have key : 2*(Real.sqrt A * Real.sqrt B) < C^2 - A - B := by
      nlinarith [mul_nonneg hsa hsb, sq_nonneg (Real.sqrt A * Real.sqrt B)]
    have hsum2 : (Real.sqrt A + Real.sqrt B)^2 < C^2 := by nlinarith
    nlinarith [add_nonneg hsa hsb]
  · intro h
    have hC : 0 < C := lt_of_le_of_lt (add_nonneg hsa hsb) h
    have hs2 : (Real.sqrt A + Real.sqrt B)^2 < C^2 :=
      pow_lt_pow_left₀ h (add_nonneg hsa hsb) (by norm_num)
    refine ⟨hC, by nlinarith [mul_nonneg hsa hsb], by nlinarith [mul_nonneg hsa hsb]⟩

/-- The loop breaks with a converged result exactly when the convergence
test of the current pass holds. -/
theorem scfStep_converged_exists {m : ℕ} (inp : ScfInputs m)
    (it MAXITER : ℕ) (s : ScfState m) :
    (∃ E s', scfStep inp it MAXITER s = .converged E s') ↔ convCond inp s := by
  constructor
  · rintro ⟨E, s', h⟩
    by_contra hc
    unfold scfStep at h
    rw [if_neg hc] at h
    split at h
    · split_ifs at h
    · exact absurd h (by simp)
  · intro hc
    refine ⟨stepE inp s,
      { s with
          Fla := s.Fla ++ [(buildFock inp.H inp.I s.Da s.Db).1]
          Flb := s.Flb ++ [(buildFock inp.H inp.I s.Da s.Db).2]
          Rla := s.Rla ++ [stepRa inp s]
          Rlb := s.Rlb ++ [stepRb inp s]
          SCF_E := stepE inp s }, ?_⟩
    unfold scfStep
    rw [if_pos hc]

/-- On the converged branch the returned energy is the energy of the pass
and the previous-energy accumulator is the state's. -/
theorem scfStep_converged_val {m : ℕ} (inp : ScfInputs m)
    (it MAXITER : ℕ) (s : ScfState m) (E : ℚ) (s' : ScfState m)
    (h : scfStep inp it MAXITER s = .converged E s') :
    E = stepE inp s ∧ convCond inp s := by
  have hc : convCond inp s :=
    (scfStep_converged_exists inp it MAXITER s).1 ⟨E, s', h⟩
  unfold scfStep at h
  rw [if_pos hc] at h
  cases h
  exact ⟨rfl, hc⟩

/-! ### Claim theorems -/

/-- C2: for every single-element history, `diis_xtrap` applied to a
trial-vector list of length 1 and a residual-vector list of length 1
returns exactly the sole trial vector: the 2×2 bordered Pulay system
forces `c[0] = 1`, so the extrapolated matrix equals `F_list[0]`. -/
theorem claim_C2_thm {m : ℕ} (F R : Mat m) : diis_xtrap [F] [R] = some F :=
  diis_xtrap_single F R

/-- C3: the Fock matrices built each iteration satisfy
`Fa = H + (Ja+Jb) - Ka` and `Fb = H + (Ja+Jb) - Kb`, where `Jmat` is the
Coulomb contraction (`pqrs,rs->pq`) and `Kmat` the exchange contraction
(`prqs,rs->pq`): both spins share the total Coulomb term, each spin's
exchange uses only its own density. -/
theorem claim_C3_thm {m : ℕ} (H : Mat m) (I : Ten4 m) (Da Db : Mat m) :
    buildFock H I Da Db =
      (H + (Jmat I Da + Jmat I Db) - Kmat I Da,
       H + (Jmat I Da + Jmat I Db) - Kmat I Db) := rfl

/-- C4: an iteration terminates the loop with convergence iff both
criteria hold simultaneously: `|dE| < E_conv` with `dE = E - E_prev`, and
`dRMS < D_conv` with `dRMS = 0.5*(RMS(Ra) + RMS(Rb))`; one criterion alone
does not stop the iteration. -/
theorem claim_C4_thm {m : ℕ} (inp : ScfInputs m) (it MAXITER : ℕ)
    (s : ScfState m) :
    (∃ E s', scfStep inp it MAXITER s = .converged E s') ↔
      (|stepE inp s - s.Eold| < inp.Econv ∧
       (1/2) * (Real.sqrt ((meanSq (stepRa inp s) : ℚ) : ℝ) +
                Real.sqrt ((meanSq (stepRb inp s) : ℚ) : ℝ))
         < ((inp.Dconv : ℚ) : ℝ)) := by
  rw [scfStep_converged_exists]
  unfold convCond
  refine and_congr_right fun _ => ?_
  rw [rmsAvgLt_iff_sqrt _ _ _ (meanSq_nonneg _) (meanSq_nonneg _)]
  push_cast
  constructor <;> intro h <;> linarith

/-- A pass that falls through to the next iteration cannot be the
`MAXITER`-th one: the iteration-limit exception pre-empts it. -/
theorem scfStep_next_ne_maxiter {m : ℕ} (inp : ScfInputs m) (it MAXITER : ℕ)
    (s s' : ScfState m) (h : scfStep inp it MAXITER s = .next s') :
    it ≠ MAXITER := by
  unfold scfStep at h
  by_cases hc : convCond inp s
  · rw [if_pos hc] at h
    exact absurd h (by simp)
  rw [if_neg hc] at h
  split at h
  · split_ifs at h with hmx
    exact hmx
  · exact absurd h (by simp)

/-- A successful loop result can only arise from a pass on which the full
convergence test held; the returned energy is that pass's energy. -/
theorem scfIters_ok_conv {m : ℕ} (inp : ScfInputs m) (MAXITER : ℕ) :
    ∀ fuel it (s : ScfState m) (E : ℚ) (s' : ScfState m),
      it + fuel = MAXITER + 1 → it ≤ MAXITER →
      scfIters inp MAXITER fuel it s = .ok (E, s') →
      ∃ s₀, convCond inp s₀ ∧ E = stepE inp s₀ := by
  intro fuel
  induction fuel with
  | zero =>
    intro it s E s' hsum hit _
    omega
  | succ fuel ih =>
    intro it s E s' hsum hit h
    rw [scfIters_succ] at h
    cases hs : scfStep inp it MAXITER s with
    | converged E₀ s₀ =>
      rw [hs] at h
      obtain ⟨hE, hc⟩ := scfStep_converged_val inp it MAXITER s E₀ s₀ hs
      refine ⟨s, hc, ?_⟩
      have hE₀ : E₀ = E := by
        simp at h
        exact h.1
      rw [← hE₀, hE]
    | next s₀ =>
      rw [hs] at h
      exact ih (it+1) s₀ E s' (by omega)
        (by
          have := scfStep_next_ne_maxiter inp it MAXITER s s₀ hs
          omega) h
    | failed msg =>
      rw [hs] at h
      exact absurd h (by simp)

/-- C5: the solver never returns a best-effort energy — any `.ok` outcome
of `scfRun` stems from a pass satisfying both convergence criteria — and
if the cap is reached without convergence it raises: with `MAXITER = 1`, a
first iteration that does not converge makes the run the fatal
iteration-limit error, not a result. -/
theorem claim_C5_thm {m : ℕ} (inp : ScfInputs m) :
    (∀ MAXITER (E : ℚ) (s' : ScfState m), 1 ≤ MAXITER →
      scfRun inp MAXITER = .ok (E, s') →
      ∃ s₀, convCond inp s₀ ∧ E = stepE inp s₀) ∧
    (¬ convCond inp (initState inp) → scfRun inp 1 = .error maxiterMsg) := by
  constructor
  · intro MAXITER E s' hMX h
    exact scfIters_ok_conv inp MAXITER MAXITER 1 (initState inp) E s'
      (by omega) hMX h
  · intro h
    unfold scfRun
    show scfIters inp 1 (0+1) 1 (initState inp) = _
    rw [scfIters_succ]
    have hstep : scfStep inp 1 1 (initState inp) = .failed maxiterMsg := by
      unfold scfStep
      rw [if_neg h]
      simp
    rw [hstep]


/-- C8: whenever the projected `M⁴` ERI tensor size exceeds the configured
memory budget, the program fails with the resource-limit error before any
tensor work or SCF iteration happens. -/
theorem claim_C8_thm {m : ℕ} (inp : ScfInputs m) (MAXITER : ℕ) (budget : ℚ)
    (h : budget < (m : ℚ)^4 * 8 / 10^9) :
    runProgram inp MAXITER budget = .error memErrMsg := by
  unfold runProgram memCheck
  rw [if_pos h]

/-- Trivial 24-basis-function input used to exercise the memory check. -/
def budInp : ScfInputs 24 :=
  { S := 0, H := 0, I := fun _ _ _ _ => 0, A := 0, nalpha := 0, nbeta := 0,
    Enuc := 0, Econv := 1, Dconv := 1, eigh := id }

theorem claim_C8_witness :
    (0:ℚ) < (24 : ℚ)^4 * 8 / 10^9 ∧
      runProgram budInp 40 0 = .error memErrMsg :=
  have h : (0:ℚ) < (24 : ℚ)^4 * 8 / 10^9 := by norm_num
  ⟨h, claim_C8_thm budInp 40 0 h⟩

/-- Helper: the singular Pulay system of iteration 2 on `cxInp`, stated on
the exact history lists the step builds. -/
theorem cx_sing :
    diis_xtrap (cxS1.Fla ++ [(buildFock cxInp.H cxInp.I cxS1.Da cxS1.Db).1])
      (cxS1.Rla ++ [stepRa cxInp cxS1]) = none := by
  rw [cx_fock1, stepRa_mat1]
  exact diis_xtrap_two_zero (matC 6) (matC 38)

/-- C1 (counterexample): on `cxInp`, iteration 1 hands state `cxS1` to
iteration 2, whose Pulay matrix is singular; that iteration does NOT fall
back to the un-extrapolated Fock matrix — the step fails, and the whole
SCF run aborts with the propagated singular-matrix error instead of
continuing to iterate. -/
theorem claim_C1_cx :
    scfStep cxInp 1 40 (initState cxInp) = .next cxS1 ∧
    diis_xtrap (cxS1.Fla ++ [(buildFock cxInp.H cxInp.I cxS1.Da cxS1.Db).1])
      (cxS1.Rla ++ [stepRa cxInp cxS1]) = none ∧
    scfStep cxInp 2 40 cxS1 = .failed linalgMsg ∧
    scfRun cxInp 40 = .error linalgMsg :=
  ⟨by rw [cx_init]; exact cx_step1, cx_sing, cx_step2, cx_run⟩

/-- C1 (amended): in any iteration `it ≥ 2` that did not converge, if the
Pulay linear solve on the appended α history encounters a singular `B`,
the singularity is surfaced — the uncaught `LinAlgError` makes the step
fail with the singular-matrix error — but there is no fallback to the
un-extrapolated Fock matrix and the driver does not continue. -/
theorem claim_C1_thm {m : ℕ} (inp : ScfInputs m) (it MAXITER : ℕ)
    (s : ScfState m) (hconv : ¬ convCond inp s) (hit : 2 ≤ it)
    (hsing : diis_xtrap (s.Fla ++ [(buildFock inp.H inp.I s.Da s.Db).1])
        (s.Rla ++ [stepRa inp s]) = none) :
    scfStep inp it MAXITER s = .failed linalgMsg := by
  unfold scfStep
  rw [if_neg hconv, if_pos hit, if_pos hit, hsing]

theorem claim_C1_witness :
    ¬ convCond cxInp cxS1 ∧ (2:ℕ) ≤ 2 ∧
    scfStep cxInp 2 40 cxS1 = .failed linalgMsg :=
  ⟨cx_not_conv1, by omega,
    claim_C1_thm cxInp 2 40 cxS1 cx_not_conv1 (by omega) cx_sing⟩

/-- C7: DIIS extrapolation is invoked iff at least two trial vectors are
in the history: a continuing pass at iteration `it` (entered with per-spin
history length `it - 1`) appends one entry per spin, bringing the length
to `it`; for `it = 1` the un-extrapolated Fock matrices feed the orbital
update, and for `it ≥ 2` the extrapolated ones do. -/
theorem claim_C7_thm {m : ℕ} (inp : ScfInputs m) (it MAXITER : ℕ)
    (s s' : ScfState m) (hit : 1 ≤ it)
    (hla : s.Fla.length = it - 1) (hlb : s.Flb.length = it - 1)
    (h : scfStep inp it MAXITER s = .next s') :
    s'.Fla.length = it ∧ s'.Flb.length = it ∧
    (it = 1 →
      s'.Da = (diag_F inp.A inp.eigh
        (buildFock inp.H inp.I s.Da s.Db).1 inp.nalpha).2 ∧
      s'.Db = (diag_F inp.A inp.eigh
        (buildFock inp.H inp.I s.Da s.Db).2 inp.nbeta).2) ∧
    (2 ≤ it → ∃ Fa2 Fb2,
      diis_xtrap (s.Fla ++ [(buildFock inp.H inp.I s.Da s.Db).1])
        (s.Rla ++ [stepRa inp s]) = some Fa2 ∧
      diis_xtrap (s.Flb ++ [(buildFock inp.H inp.I s.Da s.Db).2])
        (s.Rlb ++ [stepRb inp s]) = some Fb2 ∧
      s'.Da = (diag_F inp.A inp.eigh Fa2 inp.nalpha).2 ∧
      s'.Db = (diag_F inp.A inp.eigh Fb2 inp.nbeta).2) := by
  unfold scfStep at h
  by_cases hconv : convCond inp s
  · rw [if_pos hconv] at h
    exact absurd h (by simp)
  rw [if_neg hconv] at h
  by_cases h2 : 2 ≤ it
  · rw [if_pos h2, if_pos h2] at h
    cases hxa : diis_xtrap (s.Fla ++ [(buildFock inp.H inp.I s.Da s.Db).1])
        (s.Rla ++ [stepRa inp s]) with
    | none => rw [hxa] at h; exact absurd h (by simp)
    | some Fa2 =>
      cases hxb : diis_xtrap (s.Flb ++ [(buildFock inp.H inp.I s.Da s.Db).2])
          (s.Rlb ++ [stepRb inp s]) with
      | none => rw [hxa, hxb] at h; exact absurd h (by simp)
      | some Fb2 =>
        rw [hxa, hxb] at h
        split_ifs at h
        cases h
        refine ⟨by simp [hla]; omega, by simp [hlb]; omega, ?_, ?_⟩
        · intro h1
          omega
        · intro _
          exact ⟨Fa2, Fb2, rfl, rfl, rfl, rfl⟩
  · rw [if_neg h2, if_neg h2] at h
    split_ifs at h
    cases h
    have h1 : it = 1 := by omega
    refine ⟨by simp [hla]; omega, by simp [hlb]; omega, ?_, ?_⟩
    · intro _
      exact ⟨rfl, rfl⟩
    · intro hge
      omega

theorem claim_C7_witness :
    cxS0.Fla.length = 1 - 1 ∧ cxS0.Flb.length = 1 - 1 ∧
    scfStep cxInp 1 40 cxS0 = .next cxS1 ∧ cxS1.Fla.length = 1 :=
  ⟨rfl, rfl, cx_step1,
    (claim_C7_thm cxInp 1 40 cxS0 cxS1 (by omega) rfl rfl cx_step1).1⟩

/-- C6: for symmetric `F` and `0 ≤ n ≤ M`, `diag_F` computes exactly the
specified orbital update — with symmetric `A` the code's `A·F·A` equals
the spec's `Aᵗ·F·A`, the eigenvectors are back-transformed by `A`, the
first `n` columns are occupied, and `D = C_occ·C_occᵗ`; being a pure
function of `(A, eigh, F, n)` it is deterministic, and the very same
`diag_F` produces the core-Hamiltonian initial guess
(`diag_F(H, nalpha)`, `diag_F(H, nbeta)`) and every in-loop update. -/
theorem claim_C6_thm {m : ℕ} (A : Mat m) (eigh : Mat m → Mat m) (F : Mat m)
    (n : ℕ) (inp : ScfInputs m) (hA : A.IsSymm) (hF : F.IsSymm) (hn : n ≤ m) :
    diag_F A eigh F n = specDiag_F A eigh F n ∧
    (initState inp).Ca = (diag_F inp.A inp.eigh inp.H inp.nalpha).1 ∧
    (initState inp).Da = (diag_F inp.A inp.eigh inp.H inp.nalpha).2 ∧
    (initState inp).Cb = (diag_F inp.A inp.eigh inp.H inp.nbeta).1 ∧
    (initState inp).Db = (diag_F inp.A inp.eigh inp.H inp.nbeta).2 := by
  refine ⟨?_, rfl, rfl, rfl, rfl⟩
  unfold diag_F specDiag_F
  rw [hA.eq]

theorem claim_C6_witness :
    (matC 1).IsSymm ∧ (matC 2).IsSymm ∧ 1 ≤ 1 ∧
    diag_F (matC 1) id (matC 2) 1 = specDiag_F (matC 1) id (matC 2) 1 :=
  have hA : (matC 1).IsSymm := rfl
  have hF : (matC 2).IsSymm := rfl
  ⟨hA, hF, le_refl 1,
    (claim_C6_thm (matC 1) id (matC 2) 1 cxInp hA hF (le_refl 1)).1⟩

/-- Malformed configuration: non-positive energy tolerance and an
occupation count exceeding the basis size, on the same 1×1 integrals. -/
def cxInp9 : ScfInputs 1 := { cxInp with Econv := -1, nalpha := 5 }

/-- Tolerances loose enough that `cxInp` converges on iteration 1. -/
def cxInp10 : ScfInputs 1 := { cxInp with Econv := 100, Dconv := 1 }

theorem cx9_init : initState cxInp9 = cxS0 := by
  have ha : diag_F cxInp9.A cxInp9.eigh cxInp9.H 5 = (matC 2, matC 4) := by
    show diag_F (matC 1) id (matC 2) 5 = _
    rw [diag_F_one 2 5 (by omega)]
    norm_num
  have hb : diag_F cxInp9.A cxInp9.eigh cxInp9.H 1 = (matC 2, matC 4) := by
    show diag_F (matC 1) id (matC 2) 1 = _
    rw [diag_F_one 2 1 (by omega)]
    norm_num
  unfold initState cxS0
  show ScfState.mk (diag_F cxInp9.A cxInp9.eigh cxInp9.H 5).1
      (diag_F cxInp9.A cxInp9.eigh cxInp9.H 1).1
      (diag_F cxInp9.A cxInp9.eigh cxInp9.H 5).2
      (diag_F cxInp9.A cxInp9.eigh cxInp9.H 1).2 [] [] [] [] 0 0 = _
  rw [ha, hb]

theorem cx9_fock0 : buildFock cxInp9.H cxInp9.I cxS0.Da cxS0.Db =
    (matC 6, matC 6) := by
  show buildFock (matC 2) (fun _ _ _ _ => 1) (matC 4) (matC 4) = _
  rw [buildFock_one]
  norm_num

theorem cx9_E0 : stepE cxInp9 cxS0 = 32 := by
  unfold stepE
  rw [cx9_fock0]
  show scfEnergy (matC 2) 0 (matC 4) (matC 4) (matC 6) (matC 6) = 32
  simp [scfEnergy]
  norm_num

theorem cx9_not_conv0 : ¬ convCond cxInp9 cxS0 := by
  intro h
  have h1 := h.1
  rw [cx9_E0] at h1
  norm_num [cxS0, cxInp9, cxInp] at h1

theorem cx9_diag6a : diag_F cxInp9.A cxInp9.eigh (matC 6) cxInp9.nalpha =
    (matC 6, matC 36) := by
  show diag_F (matC 1) id (matC 6) 5 = _
  rw [diag_F_one 6 5 (by omega)]
  norm_num

theorem cx9_diag6b : diag_F cxInp9.A cxInp9.eigh (matC 6) cxInp9.nbeta =
    (matC 6, matC 36) := by
  show diag_F (matC 1) id (matC 6) 1 = _
  rw [diag_F_one 6 1 (by omega)]
  norm_num

theorem cx9_step1 : scfStep cxInp9 1 40 cxS0 = .next cxS1 := by
  unfold scfStep
  rw [if_neg cx9_not_conv0, cx9_fock0, stepRa_mat1, stepRb_mat1, cx9_E0]
  simp [cxS0, cxS1, cx9_diag6a, cx9_diag6b]

/-- C9 (counterexample): `cxInp9` has a non-positive energy tolerance
(`E_conv = -1`) and an occupation count outside `[0, M]` (`nalpha = 5` on
a 1-basis-function system), yet nothing fails at setup: the only setup
check (the memory estimate) passes, and SCF iteration 1 executes normally,
computing with the malformed configuration. -/
theorem claim_C9_cx :
    cxInp9.Econv = -1 ∧ cxInp9.nalpha = 5 ∧
    memCheck 1 2 = .ok () ∧
    scfStep cxInp9 1 40 (initState cxInp9) = .next cxS1 := by
  refine ⟨rfl, rfl, ?_, by rw [cx9_init]; exact cx9_step1⟩
  unfold memCheck
  rw [if_neg (by norm_num)]

/-- C9 (amended): the program performs no configuration validation at
setup — malformed integral tensors, occupation counts outside `[0, M]`
and non-positive tolerances are not detected; the only pre-iteration check
is the ERI memory estimate, and whenever it passes the run proceeds
directly to the SCF loop for arbitrary, possibly malformed, inputs. -/
theorem claim_C9_thm {m : ℕ} (inp : ScfInputs m) (MAXITER : ℕ) (budget : ℚ)
    (h : ¬ ((m : ℚ)^4 * 8 / 10^9 > budget)) :
    runProgram inp MAXITER budget = scfRun inp MAXITER := by
  unfold runProgram memCheck
  rw [if_neg h]

theorem claim_C9_witness :
    ¬ ((1 : ℚ)^4 * 8 / 10^9 > 2) ∧
    runProgram cxInp9 40 2 = scfRun cxInp9 40 :=
  have h : ¬ ((1 : ℚ)^4 * 8 / 10^9 > 2) := by norm_num
  ⟨h, claim_C9_thm cxInp9 40 2 h⟩

/-- C10: `E_old` is initialized to `0.0` and updated only after the
convergence check, so the first iteration's `dE` is the full total energy
`E - 0.0`; if the loop converges on iteration 1, then necessarily
`|E| < E_conv` for the absolute total energy itself. -/
theorem claim_C10_thm {m : ℕ} (inp : ScfInputs m) (MAXITER : ℕ) (E : ℚ)
    (s' : ScfState m)
    (h : scfStep inp 1 MAXITER (initState inp) = .converged E s') :
    (initState inp).Eold = 0 ∧ E = stepE inp (initState inp) ∧
      |E| < inp.Econv := by
  obtain ⟨hE, hc⟩ := scfStep_converged_val inp 1 MAXITER (initState inp) E s' h
  refine ⟨rfl, hE, ?_⟩
  have h1 := hc.1
  have h0 : (initState inp).Eold = 0 := rfl
  rw [h0, sub_zero] at h1
  rw [hE]
  exact h1

theorem cx10_init : initState cxInp10 = cxS0 := by
  have h : diag_F cxInp10.A cxInp10.eigh cxInp10.H 1 = (matC 2, matC 4) := by
    show diag_F (matC 1) id (matC 2) 1 = _
    rw [diag_F_one 2 1 (by omega)]
    norm_num
  unfold initState cxS0
  show ScfState.mk (diag_F cxInp10.A cxInp10.eigh cxInp10.H 1).1
      (diag_F cxInp10.A cxInp10.eigh cxInp10.H 1).1
      (diag_F cxInp10.A cxInp10.eigh cxInp10.H 1).2
      (diag_F cxInp10.A cxInp10.eigh cxInp10.H 1).2 [] [] [] [] 0 0 = _
  rw [h]

theorem cx10_fock0 : buildFock cxInp10.H cxInp10.I cxS0.Da cxS0.Db =
    (matC 6, matC 6) := by
  show buildFock (matC 2) (fun _ _ _ _ => 1) (matC 4) (matC 4) = _
  rw [buildFock_one]
  norm_num

theorem cx10_E0 : stepE cxInp10 cxS0 = 32 := by
  unfold stepE
  rw [cx10_fock0]
  show scfEnergy (matC 2) 0 (matC 4) (matC 4) (matC 6) (matC 6) = 32
  simp [scfEnergy]
  norm_num

theorem cx10_conv0 : convCond cxInp10 cxS0 := by
  unfold convCond
  rw [cx10_E0, stepRa_mat1, stepRb_mat1]
  refine ⟨by norm_num [cxS0, cxInp10, cxInp], ?_⟩
  rw [meanSq_zero]
  unfold rmsAvgLt
  norm_num [cxInp10, cxInp]

/-- The converged-branch state of iteration 1 on `cxInp10`: histories
appended, `SCF_E` set, `E_old` still `0`. -/
def cxS1c : ScfState 1 :=
  { Ca := matC 2, Cb := matC 2, Da := matC 4, Db := matC 4,
    Fla := [matC 6], Flb := [matC 6], Rla := [0], Rlb := [0],
    SCF_E := 32, Eold := 0 }

theorem cx10_step1 :
    scfStep cxInp10 1 40 (initState cxInp10) = .converged 32 cxS1c := by
  rw [cx10_init]
  unfold scfStep
  rw [if_pos cx10_conv0, cx10_fock0, stepRa_mat1, stepRb_mat1, cx10_E0]
  simp [cxS0, cxS1c]

theorem cx10_run : scfRun cxInp10 40 = .ok (32, cxS1c) := by
  unfold scfRun
  show scfIters cxInp10 40 (39+1) 1 (initState cxInp10) = _
  rw [scfIters_succ, cx10_step1]

theorem claim_C5_witness :
    ((1:ℕ) ≤ 40 ∧ scfRun cxInp10 40 = .ok (32, cxS1c) ∧
      ∃ s₀, convCond cxInp10 s₀ ∧ (32:ℚ) = stepE cxInp10 s₀) ∧
    (¬ convCond cxInp (initState cxInp) ∧
      scfRun cxInp 1 = .error maxiterMsg) :=
  have h1 : ¬ convCond cxInp (initState cxInp) := by
    rw [cx_init]
    exact cx_not_conv0
  ⟨⟨by omega, cx10_run,
    (claim_C5_thm cxInp10).1 40 32 cxS1c (by omega) cx10_run⟩,
   ⟨h1, (claim_C5_thm cxInp).2 h1⟩⟩

theorem claim_C10_witness :
    scfStep cxInp10 1 40 (initState cxInp10) = .converged 32 cxS1c ∧
    (initState cxInp10).Eold = 0 ∧ |(32:ℚ)| < cxInp10.Econv :=
  ⟨cx10_step1,
    (claim_C10_thm cxInp10 40 32 cxS1c cx10_step1).1,
    (claim_C10_thm cxInp10 40 32 cxS1c cx10_step1).2.2⟩

end UHF
